import Mathlib

/-!
Shallow embedding of the `wtlayout` layout compiler
(`src/wtlayout/layout.py` and `src/wtlayout/app.py`).

Modelling conventions:
* Python floats are modelled by exact rationals (`ℚ`); `round(w, 4)` is
  modelled by `round4`, round-half-to-even at 4 decimal places on the exact
  value.
* Emitted command tokens are `Tok`: every token the program builds is a
  string, except the `-s` split-ratio argument `str(round(w, 4))`, which we
  keep as the rounded rational (`Tok.q`) instead of a decimal string —
  decimal rendering of a 4-decimal rational is injective, so nothing is lost.
* Python exceptions are modelled by `Except Err`; each `Err` constructor
  names the Python exception (or the error kind the spec gives it).
* Unbounded recursion (the tree walk can recurse through `preset`
  resolution forever, and Python aborts it with `RecursionError`) is
  modelled with an explicit fuel argument; running out of fuel is
  `Err.recursionError`.
-/

/-- A command-line token.  `Tok.s` is an ordinary string argument; `Tok.q`
is the split-ratio argument emitted as `str(round(w, 4))`, kept as the
rounded rational. -/
inductive Tok where
  | s (v : String)
  | q (v : ℚ)
deriving DecidableEq, Repr

/-- Errors: Python exceptions raised by the code, under the names the spec
uses for them where it names them. -/
inductive Err where
  | unknownTemplate (name : String)     -- ValueError "Unknown preset template name ..."
  | unknownTag (tag : String)           -- ValueError "Unknown tag ..."
  | undefinedPlaceholder (name : String) -- KeyError from string.Template.substitute
  | invalidPlaceholder                  -- ValueError from string.Template.substitute
  | indexError                          -- IndexError (e.g. template[0], weights[n], panes[0])
  | typeError                           -- TypeError (unpacking None / round(None, 4) / arity)
  | attributeError                      -- AttributeError (missing method/property)
  | zeroDivision                        -- ZeroDivisionError
  | emptyJoin                           -- RuntimeError: StopIteration escaping the iterjoin generator
  | valueError                          -- ValueError from float() on a weights entry
  | recursionError                      -- Python RecursionError (modelled as fuel exhaustion)
deriving DecidableEq, Repr

/-- Python's `round(x, 4)` modelled on the exact rational: round half to
even at 4 decimal places. -/
def round4 (x : ℚ) : ℚ :=
  let y := x * 10000
  let f : ℤ := ⌊y⌋
  let frac := y - (f : ℚ)
  let r : ℤ :=
    if frac < 1/2 then f
    else if 1/2 < frac then f + 1
    else if f % 2 = 0 then f else f + 1
  (r : ℚ) / 10000

/-- The split-ratio rationals occurring in a token list, in order. -/
def qTokens (l : List Tok) : List ℚ :=
  l.filterMap (fun t => match t with | .q v => some v | .s _ => none)

/-- Eager effectful map over a list in the `Except` monad; this is how a
Python list comprehension (or an eagerly consumed generator) of fallible
expressions behaves. -/
def exList {α β : Type} (f : α → Except Err β) : List α → Except Err (List β)
  | [] => .ok []
  | a :: rest => do
      let b ← f a
      let bs ← exList f rest
      .ok (b :: bs)

/-- `iterjoin` (layout.py): yields the first item, then a separator before
every further item.  `yield next(iterables)` on an empty iterator raises
StopIteration inside the generator, which Python (PEP 479) converts to a
RuntimeError: modelled as `Err.emptyJoin`. -/
def iterjoin {α : Type} (sep : α) : List α → Except Err (List α)
  | [] => .error .emptyJoin
  | x :: xs => .ok (x :: xs.flatMap (fun y => [sep, y]))

/-- `subcmd_join` (layout.py): flattens the subcommands with `[";"]`
separators in between. -/
def subcmd_join (cmds : List (List Tok)) : Except Err (List Tok) :=
  (iterjoin [Tok.s ";"] cmds).map List.flatten

/-- The fields of `Pane` (layout.py).  `tab_color` is the 24-bit colour
integer. -/
structure PaneData where
  title : Option String := none
  starting_directory : Option String := none
  profile : Option String := none
  process : Option (List String) := none
  tab_color : Option Nat := none
deriving DecidableEq, Repr

/-- Lowercase hex digits of `n` (Python `"{:x}".format`). -/
def hexChars (n : Nat) : List Char := Nat.toDigits 16 n

/-- Python `"#{:0>6x}".format(c)`: `#` then the hex digits left-padded with
`'0'` to width 6. -/
def hexColor (c : Nat) : String :=
  "#" ++ String.mk (List.replicate (6 - (hexChars c).length) '0' ++ hexChars c)

/-- `Pane.options` (layout.py): each flag is emitted only when the field is
truthy (non-`None` and non-empty / non-zero), the process tokens last. -/
def PaneData.options (p : PaneData) : List String :=
  (match p.title with
   | some t => if t.isEmpty then [] else ["--title", t]
   | none => []) ++
  (match p.starting_directory with
   | some d => if d.isEmpty then [] else ["-d", d]
   | none => []) ++
  (match p.profile with
   | some pr => if pr.isEmpty then [] else ["-p", pr]
   | none => []) ++
  (match p.tab_color with
   | some c => if c = 0 then [] else ["--tabColor", hexColor c]
   | none => []) ++
  (match p.process with
   | some cmd => if cmd.isEmpty then [] else cmd
   | none => [])

/-- `LayoutDirection` (layout.py). -/
inductive LayoutDirection where
  | ROW
  | COLUMN
deriving DecidableEq, Repr

/-- The objects the walker builds and the compiler consumes: `Window`,
`Tab`, `LayoutTab`, `Pane` and `PaneGroup` of layout.py, merged into one
type because Python duck-types them (a method missing on a variant is an
AttributeError at call time, which the per-method functions below model). -/
inductive WTObj where
  | window (subcmds : List WTObj)
  | tab (p : PaneData)
  | layoutTab (pane : WTObj)
  | pane (p : PaneData)
  | group (layout : LayoutDirection) (panes : List WTObj) (weights : Option (List ℚ))

/-- `num_subpanes`: a property of `Pane` (1) and `PaneGroup`
(`len(panes)`); `Window`/`LayoutTab` have no such attribute. -/
def num_subpanes : WTObj → Except Err Nat
  | .pane _ => .ok 1
  | .tab _ => .ok 1
  | .group _ panes _ => .ok panes.length
  | .window _ => .error .attributeError
  | .layoutTab _ => .error .attributeError

/-- `root`: a `Pane` is its own root; a `PaneGroup`'s root is
`panes[0].root` (IndexError on an empty group). -/
def rootF : Nat → WTObj → Except Err PaneData
  | _, .pane p => .ok p
  | _, .tab p => .ok p
  | _, .window _ => .error .attributeError
  | _, .layoutTab _ => .error .attributeError
  | 0, .group _ _ _ => .error .recursionError
  | fuel+1, .group _ panes _ =>
      match panes with
      | [] => .error .indexError
      | p :: _ => rootF fuel p

/-- Truthiness of the `weights` field: `if not self.weights:` takes the
even-split branch for `None` and for an empty list. -/
def truthyWeights : Option (List ℚ) → Bool
  | none => false
  | some [] => false
  | some (_ :: _) => true

/-- The even-split branch of `sibling_options`:
`[n / (n + 1) for n in range(num_subpanes - 1, 0, -1)]`. -/
def evenSplitWeights (num : Nat) : List ℚ :=
  ((List.range' 1 (num - 1)).reverse).map (fun n : Nat => (n : ℚ) / ((n : ℚ) + 1))

/-- The explicit-weights branch of `sibling_options`:
`[1 - weights[n] / sum(weights[n:]) for n in range(num_subpanes - 1)]`,
with IndexError on a missing `weights[n]` and ZeroDivisionError on a zero
remaining sum. -/
def explicitSplitWeights (w : List ℚ) (num : Nat) : Except Err (List ℚ) :=
  exList (fun n =>
    match w[n]? with
    | none => .error .indexError
    | some wn =>
        if (w.drop n).sum = 0 then .error .zeroDivision
        else .ok (1 - wn / (w.drop n).sum))
    (List.range (num - 1))

/-- The split-weight computation at the top of `sibling_options`. -/
def splitWeights (weights : Option (List ℚ)) (num : Nat) : Except Err (List ℚ) :=
  if truthyWeights weights then explicitSplitWeights (weights.getD []) num
  else .ok (evenSplitWeights num)

/-- Orientation and focus-move directions chosen at the top of
`sibling_options`: row splits vertically and moves left/right, column
splits horizontally and moves up/down. -/
def dirStrs : LayoutDirection → String × String × String
  | .ROW => ("-V", "left", "right")
  | .COLUMN => ("-H", "up", "down")

/-- The body of the `for w, (pane_prev, pane) in zip_longest(split_weights,
pairwise_longest(self.panes), fillvalue=None)` loop of `sibling_options`,
realised as a recursion over the overlapping pairs: the step on
`(w :: sw, pane_prev :: pane :: rest)` is one loop iteration with a real
`pane`, `(sw, [pane_prev])` is the final iteration (`pane` is `None`), and
the two `typeError` cases are Python's failures when the zipped lists have
mismatched lengths (`round(None, 4)` resp. unpacking `None`) — unreachable
for the lengths `splitWeights` produces.  `nested` is the recursive
`pane_prev.sibling_options()` call. -/
def siblingCmdsGo (fuel : Nat) (nested : WTObj → Except Err (List Tok))
    (ori fp fn : String) : List ℚ → List WTObj → Except Err (List (List Tok))
  | _, [] => .ok []
  | sw, [pane_prev] => do
      let n ← num_subpanes pane_prev
      let cmds ← if 1 < n then do
          let nst ← nested pane_prev
          pure [nst]
        else pure ([] : List (List Tok))
      match sw with
      | [] => .ok cmds
      | [_] => .ok cmds
      | _ :: _ :: _ => .error .typeError
  | [], _ :: _ :: _ => .error .typeError
  | w :: sw, pane_prev :: pane :: rest => do
      let r ← rootF fuel pane
      let cmd1 := [Tok.s "sp", Tok.s ori, Tok.s "-s", Tok.q (round4 w)] ++ r.options.map Tok.s
      let n ← num_subpanes pane_prev
      let mid ← if 1 < n then do
          let nst ← nested pane_prev
          pure [[Tok.s "mf", Tok.s fp], nst, [Tok.s "mf", Tok.s fn]]
        else pure ([] : List (List Tok))
      let restCmds ← siblingCmdsGo fuel nested ori fp fn sw (pane :: rest)
      .ok (cmd1 :: mid ++ restCmds)

/-- `PaneGroup.sibling_options` (layout.py), with fuel for the recursion
through nested groups.  Only `PaneGroup` has this method. -/
def sibling_optionsF : Nat → WTObj → Except Err (List Tok)
  | _, .pane _ => .error .attributeError
  | _, .tab _ => .error .attributeError
  | _, .window _ => .error .attributeError
  | _, .layoutTab _ => .error .attributeError
  | 0, .group _ _ _ => .error .recursionError
  | fuel+1, .group layout panes weights => do
      let ds := dirStrs layout
      let sw ← splitWeights weights panes.length
      let cmds ← siblingCmdsGo fuel (sibling_optionsF fuel) ds.1 ds.2.1 ds.2.2 sw panes
      subcmd_join cmds

/-- `options` on a walked object: `Pane.options` for panes (and the
inherited one for `Tab`), `PaneGroup.options` (first pane's root options,
then the sibling split sequence, subcommand-joined) for groups;
`Window`/`LayoutTab` have no `options` method. -/
def optionsF (fuel : Nat) : WTObj → Except Err (List Tok)
  | .pane p => .ok (p.options.map Tok.s)
  | .tab p => .ok (p.options.map Tok.s)
  | .window _ => .error .attributeError
  | .layoutTab _ => .error .attributeError
  | .group layout panes weights => do
      let p0 ← match panes with
        | [] => .error Err.indexError
        | p :: _ => .ok p
      let r ← rootF fuel p0
      let sib ← sibling_optionsF fuel (.group layout panes weights)
      subcmd_join [r.options.map Tok.s, sib]

/-- `command` on a walked object: `Tab.command` is `["nt"] + options`,
`LayoutTab.command` is `["nt"] + pane.options()`, `Window.command` joins
`["wt", "-w", "0"] + subcmds[0].command()` with the remaining subcommands;
`Pane` and `PaneGroup` have no `command` method. -/
def commandF : Nat → WTObj → Except Err (List Tok)
  | _, .tab p => .ok (Tok.s "nt" :: p.options.map Tok.s)
  | fuel, .layoutTab pane => do
      let opts ← optionsF fuel pane
      .ok (Tok.s "nt" :: opts)
  | _, .pane _ => .error .attributeError
  | _, .group _ _ _ => .error .attributeError
  | 0, .window _ => .error .recursionError
  | fuel+1, .window subcmds =>
      match subcmds with
      | [] => .error .indexError
      | c0 :: rest => do
          let first ← commandF fuel c0
          let others ← exList (fun sc => commandF fuel sc) rest
          subcmd_join (([Tok.s "wt", Tok.s "-w", Tok.s "0"] ++ first) :: others)

/-- An attributed tree node, the shape `xml.etree.ElementTree.Element`
presents to app.py: a tag, ordered attributes, ordered children. -/
inductive Element where
  | mk (tag : String) (attrib : List (String × String)) (children : List Element)

/-- Tag accessor. -/
def Element.tag : Element → String
  | .mk t _ _ => t

/-- Attribute-list accessor. -/
def Element.attrib : Element → List (String × String)
  | .mk _ a _ => a

/-- Children accessor. -/
def Element.children : Element → List Element
  | .mk _ _ c => c

/-- `element.attrib.get(k)`. -/
def attrGet (e : Element) (k : String) : Option String :=
  (e.attrib.find? (fun kv => kv.1 == k)).map (fun kv => kv.2)

/-- First character of a Python identifier (`string.Template`'s default
ASCII idpattern `[_a-zA-Z][_a-zA-Z0-9]*`). -/
def isIdentStart (c : Char) : Bool := c.isAlpha || c == '_'

/-- Later character of a Python identifier. -/
def isIdentCont (c : Char) : Bool := c.isAlphanum || c == '_'

/-- Whether a character list is a valid `string.Template` identifier. -/
def validIdent (l : List Char) : Bool :=
  match l with
  | [] => false
  | c :: rest => isIdentStart c && rest.all isIdentCont

/-- Mapping lookup in the preset's attribute dict, keyed by the placeholder
identifier. -/
def lookupAttr (attrs : List (String × String)) (k : List Char) : Option String :=
  (attrs.find? (fun kv => kv.1 == String.mk k)).map (fun kv => kv.2)

/-- Scanner state for `string.Template.substitute`: outside a placeholder,
just after `$`, inside `${...}` or inside a bare `$name`. -/
inductive TMode where
  | plain
  | dollar
  | braced (acc : List Char)
  | named (acc : List Char)

/-- `string.Template(value).substitute(attrs)` (the `_process_template`
substitution): `$$` is a literal dollar, `${name}` and `$name` are replaced
by `attrs[name]` (KeyError — `Err.undefinedPlaceholder` — when absent), any
other `$` raises ValueError (`Err.invalidPlaceholder`).  A single
left-to-right pass: replacement text is emitted verbatim and never
re-scanned. -/
def tsubstM (attrs : List (String × String)) : TMode → List Char → Except Err (List Char)
  | .plain, [] => .ok []
  | .plain, c :: rest =>
      if c == '$' then tsubstM attrs .dollar rest
      else (fun t => c :: t) <$> tsubstM attrs .plain rest
  | .dollar, [] => .error .invalidPlaceholder
  | .dollar, c :: rest =>
      if c == '$' then (fun t => '$' :: t) <$> tsubstM attrs .plain rest
      else if c == '\x7b' then tsubstM attrs (.braced []) rest
      else if isIdentStart c then tsubstM attrs (.named [c]) rest
      else .error .invalidPlaceholder
  | .braced _, [] => .error .invalidPlaceholder
  | .braced acc, c :: rest =>
      if c == '\x7d' then
        if validIdent acc then
          match lookupAttr attrs acc with
          | some v => (fun t => v.data ++ t) <$> tsubstM attrs .plain rest
          | none => .error (.undefinedPlaceholder (String.mk acc))
        else .error .invalidPlaceholder
      else tsubstM attrs (.braced (acc ++ [c])) rest
  | .named acc, [] =>
      match lookupAttr attrs acc with
      | some v => .ok v.data
      | none => .error (.undefinedPlaceholder (String.mk acc))
  | .named acc, c :: rest =>
      if isIdentCont c then tsubstM attrs (.named (acc ++ [c])) rest
      else
        match lookupAttr attrs acc with
        | some v =>
            if c == '$' then (fun t => v.data ++ t) <$> tsubstM attrs .dollar rest
            else (fun t => v.data ++ c :: t) <$> tsubstM attrs .plain rest
        | none => .error (.undefinedPlaceholder (String.mk acc))

/-- Template substitution on one attribute value. -/
def tsubst (attrs : List (String × String)) (l : List Char) : Except Err (List Char) :=
  tsubstM attrs .plain l

/-- The `for element in resolved.iter(): for key, value in element.items():
element.set(key, Template(value).substitute(impl.attrib))` pass of
`_process_template`: substitutes every attribute value of every node of the
copied subtree, pre-order.  The deep copy itself is value semantics here. -/
def substAttrsF (attrs : List (String × String)) : Nat → Element → Except Err Element
  | 0, _ => .error .recursionError
  | fuel+1, .mk tag eattrs children => do
      let eattrs' ← exList (fun kv => do
        let l ← tsubst attrs kv.2.data
        pure (kv.1, String.mk l)) eattrs
      let children' ← exList (substAttrsF attrs fuel) children
      pure (.mk tag eattrs' children')

/-- `_process_template` (app.py): deep-copy the template's first child
(IndexError when the template element has no children) and substitute the
preset's attributes into every attribute value of the copy. -/
def processTemplateF (fuel : Nat) (t impl : Element) : Except Err Element :=
  match t.children with
  | [] => .error .indexError
  | body :: _ => substAttrsF impl.attrib fuel body

/-- One scope of the `ContextChainMap`: template name (the `name`
attribute, possibly absent) to template element; later registrations are
consed on and shadow earlier ones, like dict assignment. -/
abbrev Scope := List (Option String × Element)

/-- The `ContextChainMap` scope chain, innermost scope first. -/
abbrev Registry := List Scope

/-- ChainMap lookup: innermost scope containing the key wins. -/
def regLookup : Registry → Option String → Option Element
  | [], _ => none
  | sc :: rest, k =>
      match sc.find? (fun kv => kv.1 == k) with
      | some kv => some kv.2
      | none => regLookup rest k

/-- Numeric value of a digit run (`none` on a non-digit). -/
def digitsVal (l : List Char) : Option Nat :=
  l.foldlM (fun acc c => if c.isDigit then some (acc * 10 + (c.toNat - 48)) else none) 0

/-- Python `float(s)` on the plain decimal literals the `weights` attribute
uses: optional sign, integer digits, optional `.` and fraction digits.
(Exponent, infinity and NaN spellings are not modelled; no claim uses
them.) -/
def parseDecimal (s : String) : Option ℚ :=
  let sl : ℚ × List Char :=
    match s.data with
    | '-' :: r => (-1, r)
    | '+' :: r => (1, r)
    | r => (1, r)
  let ip := sl.2.takeWhile (fun c => c != '.')
  match sl.2.dropWhile (fun c => c != '.') with
  | [] =>
      if ip.isEmpty then none
      else (fun n => sl.1 * (n : ℚ)) <$> digitsVal ip
  | _ :: fp =>
      if ip.isEmpty && fp.isEmpty then none
      else do
        let n ← digitsVal ip
        let f ← digitsVal fp
        pure (sl.1 * ((n : ℚ) + (f : ℚ) / ((10 : ℚ) ^ fp.length)))

/-- Helper for `pyStrSplit`: walk the characters accumulating the current
word; whitespace ends a word, runs of whitespace produce nothing. -/
def splitWsAux : List Char → List Char → List String
  | [], acc => if acc.isEmpty then [] else [String.mk acc]
  | c :: rest, acc =>
      if c.isWhitespace then
        if acc.isEmpty then splitWsAux rest []
        else String.mk acc :: splitWsAux rest []
      else splitWsAux rest (acc ++ [c])

/-- Python `str.split()`: split on whitespace runs, no empty pieces. -/
def pyStrSplit (s : String) : List String := splitWsAux s.data []

/-- Modelled from the spec: `mslex.split`, the external shell-style argv
tokenizer for the `process` attribute ("split a string into argv-style
tokens", excluded from the core as an external collaborator), modelled as
whitespace tokenization; its quoting rules are outside the spec's scope and
unused by the claims. -/
def mslexSplit (s : String) : List String := pyStrSplit s

/-- The `weights` handling of the `row`/`column` branch of `_walk`: the
attribute is used only when truthy (present and non-empty), each
whitespace-separated piece goes through `float` (ValueError on a
non-numeric piece). -/
def parseWeightsAttr (e : Element) : Except Err (Option (List ℚ)) :=
  match attrGet e "weights" with
  | none => .ok none
  | some s =>
      if s.isEmpty then .ok none
      else match exList (fun x => match parseDecimal x with
              | some q => .ok q
              | none => .error Err.valueError) (pyStrSplit s) with
           | .ok ws => .ok (some ws)
           | .error err => .error err

/-- `_walk` (app.py): push a child scope, register the immediate `template`
children into it (all of them, before any child is walked), walk the
non-`template` children in order in the new scope, then dispatch on the
tag.  `preset` looks its `name` up in the current chain, resolves the
template against its own attributes and walks the result in the same
scope.  Fuel models Python's recursion limit (a `preset` can expand to
another `preset` indefinitely). -/
def walkF : Nat → Element → Registry → Except Err WTObj
  | 0, _, _ => .error .recursionError
  | fuel+1, e, reg =>
      let scope : Scope :=
        (e.children.filter (fun c => c.tag == "template")).foldl
          (fun sc t => (attrGet t "name", t) :: sc) []
      let reg' : Registry := scope :: reg
      do
      let children ← exList (fun c => walkF fuel c reg')
        (e.children.filter (fun c => c.tag != "template"))
      if e.tag == "window" then
        .ok (.window children)
      else if e.tag == "tab" then
        match children with
        | [] => .ok (.layoutTab (.pane {}))
        | [c] => .ok (.layoutTab c)
        | _ => .error .typeError
      else if e.tag == "row" || e.tag == "column" then do
        let weights ← parseWeightsAttr e
        .ok (.group (if e.tag == "column" then .COLUMN else .ROW) children weights)
      else if e.tag == "pane" then
        .ok (.pane { starting_directory := attrGet e "directory",
                     process := (attrGet e "process").map mslexSplit })
      else if e.tag == "preset" then
        match regLookup reg' (attrGet e "name") with
        | none => .error (.unknownTemplate ((attrGet e "name").getD ""))
        | some t => do
            let resolved ← processTemplateF fuel t e
            walkF fuel resolved reg'
      else .error (.unknownTag e.tag)

/-- Stated from the spec's words, for comparison with `evenSplitWeights`:
"the *i*-th split (0-indexed from the start) uses remaining-pane count
`m = n-i` and ratio `(m-1)/m`", i.e. the sequence
`[(n-1)/n, (n-2)/(n-1), ..., 1/2]`. -/
def specEvenRatios (n : Nat) : List ℚ :=
  (List.range (n - 1)).map (fun i => ((n - 1 - i : Nat) : ℚ) / ((n - i : Nat) : ℚ))

/-- The explicit-weights ratio sequence written recursively: for panes
`i..`, the split ratio is `1 - w[i] / sum(w[i:])` and the rest follows on
the remaining weights.  (No ratio is emitted for a single remaining
pane.) -/
def weightRatios : List ℚ → List ℚ
  | [] => []
  | [_] => []
  | x :: y :: rest => (1 - x / (x :: y :: rest).sum) :: weightRatios (y :: rest)

/-- Space occupancy induced by a split-ratio sequence, per the spec's
split semantics: splitting a region with ratio `r` cedes fraction `r` of it
to the ratio's tail (the not-yet-placed panes) and keeps `1 - r` for the
current pane.  `paneFractions rs` lists the fraction of the group's space
each pane ends up with. -/
def paneFractions : List ℚ → List ℚ
  | [] => [1]
  | r :: rs => (1 - r) :: (paneFractions rs).map (fun f => r * f)

theorem qTokens_append (a b : List Tok) : qTokens (a ++ b) = qTokens a ++ qTokens b :=
  List.filterMap_append a b _

theorem qTokens_mapS (l : List String) : qTokens (l.map Tok.s) = [] := by
  induction l with
  | nil => rfl
  | cons x xs ih => simp [qTokens] at ih ⊢

theorem subcmd_join_cons (c : List Tok) (cs : List (List Tok)) :
    subcmd_join (c :: cs) = .ok (c ++ cs.flatMap (fun y => Tok.s ";" :: y)) := by
  induction cs with
  | nil => simp [subcmd_join, iterjoin, Except.map]
  | cons d ds ih =>
      simp only [subcmd_join, iterjoin, Except.map] at ih ⊢
      simp only [List.flatMap_cons, List.flatten_cons, List.flatten_append] at ih ⊢
      cases h : ds.flatMap (fun y => [[Tok.s ";"], y]) with
      | nil => simp_all [List.flatten]
      | cons z zs => simp_all [List.flatten]

theorem qTokens_flatMap_sep (cs : List (List Tok)) :
    qTokens (cs.flatMap (fun y => Tok.s ";" :: y)) = (cs.map qTokens).flatten := by
  induction cs with
  | nil => rfl
  | cons d ds ih => simp [qTokens, List.filterMap_append] at ih ⊢ ; simp [ih]

theorem evenSplitWeights_eq_spec (n : Nat) : evenSplitWeights n = specEvenRatios n := by
  unfold evenSplitWeights specEvenRatios
  rw [List.reverse_range', List.map_map]
  refine List.map_congr_left (fun i hi => ?_)
  rw [List.mem_range] at hi
  have h1 : 1 + (n - 1) - 1 - i = n - 1 - i := by omega
  have h2 : (n - 1 - i : Nat) + 1 = n - i := by omega
  simp only [Function.comp_apply, h1]
  rw [← h2]
  push_cast
  ring_nf

theorem exList_map {α β γ : Type} (f : β → Except Err γ) (g : α → β) (l : List α) :
    exList f (l.map g) = exList (fun a => f (g a)) l := by
  induction l with
  | nil => rfl
  | cons x xs ih => simp [exList, ih]

theorem exList_congr {α β : Type} {f g : α → Except Err β} (l : List α)
    (h : ∀ a ∈ l, f a = g a) : exList f l = exList g l := by
  induction l with
  | nil => rfl
  | cons x xs ih =>
      simp only [exList, h x (List.mem_cons_self x xs)]
      rw [ih (fun a ha => h a (List.mem_cons_of_mem _ ha))]

theorem explicitSplitWeights_eq : ∀ (w : List ℚ), (∀ x ∈ w, (0:ℚ) < x) →
    explicitSplitWeights w w.length = .ok (weightRatios w)
  | [], _ => rfl
  | [x], _ => rfl
  | x :: y :: rest, hpos => by
      have htail : ∀ z ∈ y :: rest, (0:ℚ) < z :=
        fun z hz => hpos z (List.mem_cons_of_mem _ hz)
      have hS : (0:ℚ) < (x :: y :: rest).sum := List.sum_pos _ hpos (by simp)
      have ih := explicitSplitWeights_eq (y :: rest) htail
      unfold explicitSplitWeights at ih ⊢
      rw [show (y :: rest).length - 1 = rest.length from by simp] at ih
      rw [show (x :: y :: rest).length - 1 = rest.length + 1 from by simp,
        List.range_succ_eq_map]
      simp only [exList, List.getElem?_cons_zero, List.drop_zero, hS.ne', if_neg,
        ite_false, exList_map]
      have hstep : exList (fun n =>
          match (x :: y :: rest)[Nat.succ n]? with
          | none => Except.error Err.indexError
          | some wn =>
              if ((x :: y :: rest).drop (Nat.succ n)).sum = 0 then Except.error Err.zeroDivision
              else Except.ok (1 - wn / ((x :: y :: rest).drop (Nat.succ n)).sum))
          (List.range rest.length) = exList (fun n =>
          match (y :: rest)[n]? with
          | none => Except.error Err.indexError
          | some wn =>
              if ((y :: rest).drop n).sum = 0 then Except.error Err.zeroDivision
              else Except.ok (1 - wn / ((y :: rest).drop n).sum))
          (List.range rest.length) := by
        exact exList_congr _ (fun a _ => by simp)
      rw [hstep, ih]
      rfl

theorem weightRatios_formula : ∀ (w : List ℚ),
    weightRatios w = (List.range (w.length - 1)).map
      (fun i => 1 - w.getD i 0 / (w.drop i).sum)
  | [] => rfl
  | [_] => rfl
  | x :: y :: rest => by
      have ih := weightRatios_formula (y :: rest)
      simp only [weightRatios]
      rw [ih]
      have hlen : (x :: y :: rest).length - 1 = rest.length + 1 := by simp
      have hlen' : (y :: rest).length - 1 = rest.length := by simp
      rw [hlen, hlen', List.range_succ_eq_map, List.map_cons, List.map_map]
      constructor

theorem paneFractions_weightRatios : ∀ (w : List ℚ), (∀ x ∈ w, (0:ℚ) < x) → w ≠ [] →
    paneFractions (weightRatios w) = w.map (fun x => x / w.sum)
  | [], _, h => absurd rfl h
  | [x], hpos, _ => by
      have hx : x ≠ 0 := ne_of_gt (hpos x (by simp))
      simp [weightRatios, paneFractions, div_self hx]
  | x :: y :: rest, hpos, _ => by
      have htail : ∀ z ∈ y :: rest, (0:ℚ) < z :=
        fun z hz => hpos z (List.mem_cons_of_mem _ hz)
      have ih := paneFractions_weightRatios (y :: rest) htail (by simp)
      have hS' : (0:ℚ) < (y :: rest).sum := List.sum_pos _ htail (by simp)
      have hS : (0:ℚ) < (x :: y :: rest).sum := List.sum_pos _ hpos (by simp)
      have hsum : (x :: y :: rest).sum = x + (y :: rest).sum := by simp
      have hSne : x + (y :: rest).sum ≠ 0 := by rw [← hsum]; exact hS.ne'
      simp only [weightRatios, paneFractions]
      rw [ih, List.map_map]
      conv_rhs => rw [List.map_cons]
      congr 1
      · ring
      · refine List.map_congr_left (fun v _ => ?_)
        have hA : y + rest.sum ≠ 0 := by
          have h := hS'
          simp only [List.sum_cons] at h
          exact h.ne'
        have hB : x + (y + rest.sum) ≠ 0 := by
          have h := hS
          simp only [List.sum_cons] at h
          exact h.ne'
        simp only [Function.comp_apply, List.sum_cons]
        field_simp
        ring

theorem subcmd_join_ok_qTokens (c : List Tok) (cs : List (List Tok)) :
    ∃ l, subcmd_join (c :: cs) = .ok l ∧ qTokens l = ((c :: cs).map qTokens).flatten := by
  refine ⟨_, subcmd_join_cons c cs, ?_⟩
  rw [qTokens_append, qTokens_flatMap_sep]
  simp

theorem siblingCmdsGo_leaves (fuel : Nat) (nst : WTObj → Except Err (List Tok))
    (ori fp fn : String) :
    ∀ (sw : List ℚ) (ps : List WTObj), (∀ p ∈ ps, ∃ d, p = WTObj.pane d) →
    sw.length + 1 = ps.length →
    ∃ cmds, siblingCmdsGo fuel nst ori fp fn sw ps = .ok cmds ∧
      (cmds.map qTokens).flatten = sw.map round4 ∧ cmds.length = sw.length := by
  intro sw
  induction sw with
  | nil =>
      intro ps hleaf hlen
      match ps, hlen with
      | [p], _ =>
          obtain ⟨d, rfl⟩ := hleaf p (by simp)
          exact ⟨[], rfl, rfl, rfl⟩
  | cons w sw ih =>
      intro ps hleaf hlen
      match ps, hlen with
      | p :: q :: rest, hlen =>
          obtain ⟨d1, rfl⟩ := hleaf p (by simp)
          obtain ⟨d2, hq⟩ := hleaf q (by simp)
          obtain ⟨cmds', hok, hflat, hcl⟩ := ih (q :: rest)
            (fun a ha => hleaf a (List.mem_cons_of_mem _ ha)) (by simpa using hlen)
          subst hq
          refine ⟨([Tok.s "sp", Tok.s ori, Tok.s "-s", Tok.q (round4 w)] ++
              d2.options.map Tok.s) :: cmds', ?_, ?_, ?_⟩
          · simp only [siblingCmdsGo, rootF, num_subpanes, hok]
            rfl
          · simp only [List.map_cons, List.flatten_cons, hflat, qTokens_append,
              qTokens_mapS, List.append_nil]
            simp [qTokens]
          · simp [hcl]

theorem ex_bind_ok {α β : Type} (a : α) (f : α → Except Err β) :
    (Except.ok a >>= f : Except Err β) = f a := rfl

theorem evenSplitWeights_length (n : Nat) : (evenSplitWeights n).length = n - 1 := by
  simp [evenSplitWeights]

theorem weightRatios_length (w : List ℚ) : (weightRatios w).length = w.length - 1 := by
  rw [weightRatios_formula]; simp

theorem sibling_optionsF_group (fuel : Nat) (layout : LayoutDirection)
    (panes : List WTObj) (weights : Option (List ℚ)) :
    sibling_optionsF (fuel+1) (.group layout panes weights) =
      (splitWeights weights panes.length >>= fun sw =>
        siblingCmdsGo fuel (sibling_optionsF fuel)
          (dirStrs layout).1 (dirStrs layout).2.1 (dirStrs layout).2.2 sw panes >>=
            fun cmds => subcmd_join cmds) := rfl

theorem splitWeights_none (n : Nat) :
    splitWeights none n = .ok (evenSplitWeights n) := rfl

theorem splitWeights_some (w : List ℚ) (n : Nat) (h : w ≠ []) :
    splitWeights (some w) n = explicitSplitWeights w n := by
  cases w with
  | nil => exact absurd rfl h
  | cons a as => rfl

/-- C1: for a `PaneGroup` of `n ≥ 2` panes with no explicit weights,
compilation emits exactly `n-1` split ratios, whose unrounded values are
`[(n-1)/n, (n-2)/(n-1), ..., 1/2]` in emission order, each emitted rounded
to 4 decimal digits. -/
theorem c1_even_split_ratios (dir : LayoutDirection) (ps : List WTObj) (fuel : Nat)
    (hleaf : ∀ p ∈ ps, ∃ d, p = WTObj.pane d) (hn : 2 ≤ ps.length) :
    ∃ cmds, sibling_optionsF (fuel+1) (.group dir ps none) = .ok cmds ∧
      qTokens cmds = (specEvenRatios ps.length).map round4 ∧
      (qTokens cmds).length = ps.length - 1 ∧
      evenSplitWeights ps.length = specEvenRatios ps.length := by
  obtain ⟨cmds, hok, hflat, hcl⟩ := siblingCmdsGo_leaves fuel (sibling_optionsF fuel)
    (dirStrs dir).1 (dirStrs dir).2.1 (dirStrs dir).2.2 (evenSplitWeights ps.length) ps hleaf
    (by rw [evenSplitWeights_length]; omega)
  have hne : cmds ≠ [] := by
    intro h
    rw [h, List.length_nil, evenSplitWeights_length] at hcl
    omega
  obtain ⟨c, cs, rfl⟩ := List.exists_cons_of_ne_nil hne
  obtain ⟨l, hjoin, hq⟩ := subcmd_join_ok_qTokens c cs
  refine ⟨l, ?_, ?_, ?_, evenSplitWeights_eq_spec _⟩
  · rw [sibling_optionsF_group, splitWeights_none, ex_bind_ok, hok, ex_bind_ok, hjoin]
  · rw [hq, hflat, evenSplitWeights_eq_spec]
  · rw [hq, hflat, List.length_map, evenSplitWeights_length]

/-- C1 witness: a three-pane row with no weights. -/
theorem c1_witness :
    ∃ cmds, sibling_optionsF 1
        (.group .ROW [.pane {}, .pane {}, .pane {}] none) = .ok cmds ∧
      qTokens cmds = (specEvenRatios 3).map round4 ∧
      (qTokens cmds).length = 2 ∧
      evenSplitWeights 3 = specEvenRatios 3 := by
  have h := c1_even_split_ratios .ROW [.pane {}, .pane {}, .pane {}] 0
    (by intro p hp; simp at hp; rcases hp with rfl | rfl | rfl; all_goals exact ⟨_, rfl⟩)
    (by simp)
  simpa using h

/-- C2: for a `PaneGroup` with explicit positive weights, one per pane, the
`i`-th emitted split ratio is `1 - w[i] / sum(w[i:])` (rounded to 4 decimal
digits for emission), and under the split semantics pane `i` ends up with
`w[i] / sum(w)` of the group's space. -/
theorem c2_weighted_split_ratios (dir : LayoutDirection) (ps : List WTObj) (fuel : Nat)
    (w : List ℚ) (hleaf : ∀ p ∈ ps, ∃ d, p = WTObj.pane d)
    (hlen : w.length = ps.length) (hpos : ∀ x ∈ w, (0:ℚ) < x) (hn : 2 ≤ ps.length) :
    ∃ cmds, sibling_optionsF (fuel+1) (.group dir ps (some w)) = .ok cmds ∧
      qTokens cmds = (weightRatios w).map round4 ∧
      weightRatios w = (List.range (w.length - 1)).map
        (fun i => 1 - w.getD i 0 / (w.drop i).sum) ∧
      paneFractions (weightRatios w) = w.map (fun x => x / w.sum) := by
  have hwne : w ≠ [] := by
    intro h
    rw [h] at hlen
    simp at hlen
    omega
  obtain ⟨cmds, hok, hflat, hcl⟩ := siblingCmdsGo_leaves fuel (sibling_optionsF fuel)
    (dirStrs dir).1 (dirStrs dir).2.1 (dirStrs dir).2.2 (weightRatios w) ps hleaf
    (by rw [weightRatios_length]; omega)
  have hne : cmds ≠ [] := by
    intro h
    rw [h, List.length_nil, weightRatios_length] at hcl
    omega
  obtain ⟨c, cs, rfl⟩ := List.exists_cons_of_ne_nil hne
  obtain ⟨l, hjoin, hq⟩ := subcmd_join_ok_qTokens c cs
  refine ⟨l, ?_, ?_, weightRatios_formula w, paneFractions_weightRatios w hpos hwne⟩
  · rw [sibling_optionsF_group, splitWeights_some w _ hwne, ← hlen,
      explicitSplitWeights_eq w hpos, ex_bind_ok, hok, ex_bind_ok, hjoin]
  · rw [hq, hflat]

/-- C2 witness: three panes with weights `[1, 1, 2]`; the emitted rounded
ratios are `0.75` and `0.6667`. -/
theorem c2_witness :
    (∃ cmds, sibling_optionsF 1
        (.group .ROW [.pane {}, .pane {}, .pane {}] (some [1, 1, 2])) = .ok cmds ∧
      qTokens cmds = [3/4, 6667/10000]) ∧
      weightRatios [1, 1, 2] = [3/4, 2/3] ∧
      paneFractions (weightRatios [1, 1, 2]) = [1/4, 1/4, 1/2] := by
  have h := c2_weighted_split_ratios .ROW [.pane {}, .pane {}, .pane {}] 0 [1, 1, 2]
    (by intro p hp; simp at hp; rcases hp with rfl | rfl | rfl; all_goals exact ⟨_, rfl⟩)
    (by simp) (by intro x hx; simp at hx; rcases hx with rfl | rfl | rfl; all_goals norm_num)
    (by simp)
  obtain ⟨cmds, hok, hq, hform, hfrac⟩ := h
  have hwr : weightRatios [(1:ℚ), 1, 2] = [3/4, 2/3] := by
    simp [weightRatios]
    norm_num
  refine ⟨⟨cmds, hok, ?_⟩, ?_, ?_⟩
  · rw [hq, hwr]
    have h1 : round4 (3/4) = 3/4 := by norm_num [round4]
    have h2 : round4 (2/3) = 6667/10000 := by norm_num [round4]
    simp [h1, h2]
  · rw [hwr]
  · rw [hfrac]; norm_num

/-- C3 (code defect): a `PaneGroup` with exactly one pane does compute an
empty split-ratio sequence, but its `options()` does not return the pane's
own options: `sibling_options` ends with `subcmd_join()` on zero commands,
whose `iterjoin` generator raises StopIteration, which Python converts to a
RuntimeError — compilation of a single-pane group crashes. -/
theorem c3_single_pane_group_crash :
    splitWeights none 1 = .ok [] ∧
    sibling_optionsF 3 (.group .ROW [.pane {}] none) = .error .emptyJoin ∧
    optionsF 3 (.group .ROW [.pane {}] none) = .error .emptyJoin :=
  ⟨rfl, rfl, rfl⟩

/-- C10: `Pane.options` emits a flag only for a truthy field: an
empty-string title, directory or profile, and a tab colour equal to `0`,
produce exactly the options of a pane with the field absent — no token at
all. -/
theorem c10_falsy_fields_omit_flags (p : PaneData) :
    PaneData.options { p with title := some "" } =
      PaneData.options { p with title := none } ∧
    PaneData.options { p with starting_directory := some "" } =
      PaneData.options { p with starting_directory := none } ∧
    PaneData.options { p with profile := some "" } =
      PaneData.options { p with profile := none } ∧
    PaneData.options { p with tab_color := some 0 } =
      PaneData.options { p with tab_color := none } :=
  ⟨rfl, rfl, rfl, rfl⟩

/-- C5: a `Window` of three sub-actions compiles to the new-window command
carrying the first sub-action's command, then each further sub-action's
command preceded by exactly one `";"` separator; when the sub-commands
themselves contain no separator, the result has exactly two `";"` tokens
and does not start with one. -/
theorem c5_window_separators (a b c : WTObj) (fuel : Nat) (ca cb cc : List Tok)
    (ha : commandF fuel a = .ok ca) (hb : commandF fuel b = .ok cb)
    (hc : commandF fuel c = .ok cc) :
    commandF (fuel+1) (.window [a, b, c]) =
      .ok (([Tok.s "wt", Tok.s "-w", Tok.s "0"] ++ ca) ++
        ((Tok.s ";" :: cb) ++ (Tok.s ";" :: cc))) ∧
    (Tok.s ";" ∉ ca → Tok.s ";" ∉ cb → Tok.s ";" ∉ cc →
      ((([Tok.s "wt", Tok.s "-w", Tok.s "0"] ++ ca) ++
        ((Tok.s ";" :: cb) ++ (Tok.s ";" :: cc))).count (Tok.s ";") = 2 ∧
       (([Tok.s "wt", Tok.s "-w", Tok.s "0"] ++ ca) ++
        ((Tok.s ";" :: cb) ++ (Tok.s ";" :: cc))).head? = some (Tok.s "wt"))) := by
  constructor
  · show (commandF fuel a >>= fun first => exList (fun sc => commandF fuel sc) [b, c] >>=
        fun others => subcmd_join (([Tok.s "wt", Tok.s "-w", Tok.s "0"] ++ first) :: others)) = _
    rw [ha, ex_bind_ok]
    have hex : exList (fun sc => commandF fuel sc) [b, c] = .ok [cb, cc] := by
      simp only [exList, hb, hc]
      rfl
    rw [hex, ex_bind_ok, subcmd_join_cons]
    simp
  · intro hca hcb hcc
    refine ⟨?_, rfl⟩
    rw [List.count_append, List.count_append, List.count_append,
      List.count_cons_self, List.count_cons_self,
      List.count_eq_zero.mpr hca, List.count_eq_zero.mpr hcb, List.count_eq_zero.mpr hcc]
    rfl

/-- C5 witness: a window of three bare tabs. -/
theorem c5_witness :
    commandF 1 (.window [.tab {}, .tab {}, .tab {}]) =
      .ok [Tok.s "wt", Tok.s "-w", Tok.s "0", Tok.s "nt",
        Tok.s ";", Tok.s "nt", Tok.s ";", Tok.s "nt"] ∧
    ([Tok.s "wt", Tok.s "-w", Tok.s "0", Tok.s "nt",
        Tok.s ";", Tok.s "nt", Tok.s ";", Tok.s "nt"]).count (Tok.s ";") = 2 := by
  have h := c5_window_separators (.tab {}) (.tab {}) (.tab {}) 0
    [Tok.s "nt"] [Tok.s "nt"] [Tok.s "nt"] rfl rfl rfl
  exact ⟨h.1, by decide⟩

theorem explicitSplitWeights_two (w0 w1 : ℚ) (rest : List ℚ)
    (h : (w0 :: w1 :: rest).sum ≠ 0) :
    explicitSplitWeights (w0 :: w1 :: rest) 2 =
      .ok [1 - w0 / (w0 :: w1 :: rest).sum] := by
  unfold explicitSplitWeights
  rw [show List.range (2-1) = [0] from rfl]
  simp only [exList, List.getElem?_cons_zero, List.drop_zero]
  rw [if_neg h]
  rfl

theorem sibling_optionsF_two_panes (weights : Option (List ℚ)) (r : ℚ)
    (hsw : splitWeights weights 2 = .ok [r]) :
    sibling_optionsF 1 (.group .ROW [.pane {}, .pane {}] weights) =
      .ok [Tok.s "sp", Tok.s "-V", Tok.s "-s", Tok.q (round4 r)] := by
  show (splitWeights weights 2 >>= fun sw =>
      siblingCmdsGo 0 (sibling_optionsF 0) "-V" "left" "right" sw
        [.pane {}, .pane {}] >>= fun cmds => subcmd_join cmds) = _
  rw [hsw, ex_bind_ok]
  rfl

theorem sibling_optionsF_splitErr (fuel : Nat) (dir : LayoutDirection)
    (panes : List WTObj) (weights : Option (List ℚ)) (e : Err)
    (hsw : splitWeights weights panes.length = .error e) :
    sibling_optionsF (fuel+1) (.group dir panes weights) = .error e := by
  rw [sibling_optionsF_group, hsw]
  rfl

/-- C6 counterexample: a `weights` attribute with three values on a
two-pane `row` raises nothing: the walk stores the mismatched list
unchecked and compilation succeeds, producing a split command — the claimed
`MalformedWeightsError` (or any error) does not occur. -/
theorem c6_counterexample :
    walkF 2 (.mk "row" [("weights", "1 1 2")]
        [.mk "pane" [] [], .mk "pane" [] []]) [[]] =
      .ok (.group .ROW [.pane {}, .pane {}] (some [1, 1, 2])) ∧
    sibling_optionsF 1 (.group .ROW [.pane {}, .pane {}] (some [1, 1, 2])) =
      .ok [Tok.s "sp", Tok.s "-V", Tok.s "-s", Tok.q (3/4)] := by
  constructor
  · have h0 : walkF 2 (.mk "row" [("weights", "1 1 2")]
        [.mk "pane" [] [], .mk "pane" [] []]) [[]] =
        .ok (.group .ROW [.pane {}, .pane {}]
          (some [1 * ((1:Nat):ℚ), 1 * ((1:Nat):ℚ), 1 * ((2:Nat):ℚ)])) := rfl
    rw [h0]
    norm_num
  · have hsw : splitWeights (some [(1:ℚ), 1, 2]) 2 = .ok [3/4] := by
      rw [splitWeights_some _ _ (by simp),
        explicitSplitWeights_two 1 1 [2] (by norm_num)]
      norm_num
    have h := sibling_optionsF_two_panes (some [1, 1, 2]) (3/4) hsw
    rw [h]
    norm_num [round4]

/-- C6 amended: the code performs no weight validation and defines no
`MalformedWeightsError`: surplus weights and non-positive weights (with
nonzero remaining sums) compile silently with ratio `1 - w[i]/sum(w[i:])`;
too few weights merely surface as an IndexError, and a zero remaining
weight sum as a ZeroDivisionError, during the ratio computation. -/
theorem c6_no_weight_validation :
    (sibling_optionsF 1 (.group .ROW [.pane {}, .pane {}] (some [1, 1, 2])) =
      .ok [Tok.s "sp", Tok.s "-V", Tok.s "-s", Tok.q (3/4)]) ∧
    (sibling_optionsF 1 (.group .ROW [.pane {}, .pane {}] (some [3, -1])) =
      .ok [Tok.s "sp", Tok.s "-V", Tok.s "-s", Tok.q (-(1/2))]) ∧
    (sibling_optionsF 1 (.group .ROW [.pane {}, .pane {}, .pane {}] (some [1])) =
      .error .indexError) ∧
    (sibling_optionsF 1 (.group .ROW [.pane {}, .pane {}] (some [-1, 1])) =
      .error .zeroDivision) := by
  refine ⟨?_, ?_, ?_, ?_⟩
  · have hsw : splitWeights (some [(1:ℚ), 1, 2]) 2 = .ok [3/4] := by
      rw [splitWeights_some _ _ (by simp),
        explicitSplitWeights_two 1 1 [2] (by norm_num)]
      norm_num
    rw [sibling_optionsF_two_panes (some [1, 1, 2]) (3/4) hsw]
    norm_num [round4]
  · have hsw : splitWeights (some [(3:ℚ), -1]) 2 = .ok [-(1/2)] := by
      rw [splitWeights_some _ _ (by simp),
        explicitSplitWeights_two 3 (-1) [] (by norm_num)]
      norm_num
    rw [sibling_optionsF_two_panes (some [3, -1]) (-(1/2)) hsw]
    norm_num [round4]
  · have hsw : splitWeights (some [(1:ℚ)]) 3 = .error .indexError := by
      rw [splitWeights_some _ _ (by simp)]
      unfold explicitSplitWeights
      rw [show List.range (3-1) = [0, 1] from rfl]
      simp only [exList, List.getElem?_cons_zero, List.getElem?_cons_succ,
        List.getElem?_nil, List.drop_zero]
      rw [if_neg (show ¬(([(1:ℚ)]).sum = 0) by norm_num)]
      rfl
    exact sibling_optionsF_splitErr 0 .ROW _ _ .indexError hsw
  · have hsw : splitWeights (some [(-1:ℚ), 1]) 2 = .error .zeroDivision := by
      rw [splitWeights_some _ _ (by simp)]
      unfold explicitSplitWeights
      rw [show List.range (2-1) = [0] from rfl]
      simp only [exList, List.getElem?_cons_zero, List.drop_zero]
      rw [if_pos (show (([(-1:ℚ), 1]).sum = 0) by norm_num)]
      rfl
    exact sibling_optionsF_splitErr 0 .ROW _ _ .zeroDivision hsw

/-- C8 counterexample: in a two-element row whose FIRST element is a nested
two-pane group, the nested split IS bracketed by focus moves (`mf left`
before, `mf right` after) — the claim's exemption of the first element from
focus-move emission is false; only the last element is exempt. -/
theorem c8_counterexample :
    sibling_optionsF 2 (.group .ROW
        [.group .ROW [.pane {}, .pane {}] none, .pane {}] none) =
      .ok [Tok.s "sp", Tok.s "-V", Tok.s "-s", Tok.q (1/2), Tok.s ";",
           Tok.s "mf", Tok.s "left", Tok.s ";",
           Tok.s "sp", Tok.s "-V", Tok.s "-s", Tok.q (1/2), Tok.s ";",
           Tok.s "mf", Tok.s "right"] ∧
    Tok.s "mf" ∈ [Tok.s "sp", Tok.s "-V", Tok.s "-s", Tok.q (1/2), Tok.s ";",
           Tok.s "mf", Tok.s "left", Tok.s ";",
           Tok.s "sp", Tok.s "-V", Tok.s "-s", Tok.q (1/2), Tok.s ";",
           Tok.s "mf", Tok.s "right"] := by
  constructor
  · have h0 : sibling_optionsF 2 (.group .ROW
        [.group .ROW [.pane {}, .pane {}] none, .pane {}] none) =
        .ok [Tok.s "sp", Tok.s "-V", Tok.s "-s",
             Tok.q (round4 (((1:Nat):ℚ) / (((1:Nat):ℚ) + 1))), Tok.s ";",
             Tok.s "mf", Tok.s "left", Tok.s ";",
             Tok.s "sp", Tok.s "-V", Tok.s "-s",
             Tok.q (round4 (((1:Nat):ℚ) / (((1:Nat):ℚ) + 1))), Tok.s ";",
             Tok.s "mf", Tok.s "right"] := rfl
    rw [h0]
    norm_num [round4]
  · decide

/-- C8 amended: during `sibling_options`, a nested group's split commands
are bracketed by a focus move to it before and a focus move to the freshly
split sibling after whenever a next pane exists — including at the first
element; only at the LAST element (no next pane) are no focus moves
emitted. -/
theorem c8_focus_bracketing_amended (fuel : Nat) (ori fp fn : String) (g : WTObj)
    (gl : List Tok) (hg : sibling_optionsF fuel g = .ok gl)
    (gn : Nat) (hn : num_subpanes g = .ok gn) (h2 : 1 < gn) :
    siblingCmdsGo fuel (sibling_optionsF fuel) ori fp fn [] [g] = .ok [gl] ∧
    (∀ (w : ℚ) (sw : List ℚ) (nxt : WTObj) (rest : List WTObj) (d : PaneData),
      rootF fuel nxt = .ok d →
      siblingCmdsGo fuel (sibling_optionsF fuel) ori fp fn (w :: sw) (g :: nxt :: rest) =
        (siblingCmdsGo fuel (sibling_optionsF fuel) ori fp fn sw (nxt :: rest)).map
          (fun cs => ([Tok.s "sp", Tok.s ori, Tok.s "-s", Tok.q (round4 w)] ++
              d.options.map Tok.s) ::
            [Tok.s "mf", Tok.s fp] :: gl :: [Tok.s "mf", Tok.s fn] :: cs)) := by
  constructor
  · simp only [siblingCmdsGo]
    rw [hn, ex_bind_ok, if_pos h2, hg, ex_bind_ok]
    rfl
  · intro w sw nxt rest d hd
    simp only [siblingCmdsGo]
    rw [hd, ex_bind_ok, hn, ex_bind_ok, if_pos h2, hg, ex_bind_ok]
    cases hrec : siblingCmdsGo fuel (sibling_optionsF fuel) ori fp fn sw (nxt :: rest) with
    | error e => rfl
    | ok cs => rfl

/-- C8 witness: the last-element case at a concrete nested group. -/
theorem c8_witness :
    siblingCmdsGo 1 (sibling_optionsF 1) "-V" "left" "right" []
      [.group .ROW [.pane {}, .pane {}] none] =
      .ok [[Tok.s "sp", Tok.s "-V", Tok.s "-s", Tok.q (1/2)]] := by
  have hg : sibling_optionsF 1 (.group .ROW [.pane {}, .pane {}] none) =
      .ok [Tok.s "sp", Tok.s "-V", Tok.s "-s", Tok.q (1/2)] := by
    have h0 : sibling_optionsF 1 (.group .ROW [.pane {}, .pane {}] none) =
        .ok [Tok.s "sp", Tok.s "-V", Tok.s "-s",
          Tok.q (round4 (((1:Nat):ℚ) / (((1:Nat):ℚ) + 1)))] := rfl
    rw [h0]
    norm_num [round4]
  exact (c8_focus_bracketing_amended 1 "-V" "left" "right" _ _ hg 2 rfl
    (by norm_num)).1

/-- C7 counterexample: walking a `pane` node with `title`, `profile` and
`tabColor` attributes ignores them (only `directory` and `process` are
materialized), so the resulting options contain no `--title`, `-p` or
`--tabColor` token. -/
theorem c7_counterexample :
    walkF 1 (.mk "pane" [("title", "T"), ("profile", "P"),
        ("tabColor", "#ff0000"), ("directory", "D")] []) [[]] =
      .ok (.pane ⟨none, some "D", none, none, none⟩) ∧
    "--title" ∉ PaneData.options ⟨none, some "D", none, none, none⟩ ∧
    "-p" ∉ PaneData.options ⟨none, some "D", none, none, none⟩ ∧
    "--tabColor" ∉ PaneData.options ⟨none, some "D", none, none, none⟩ := by
  refine ⟨rfl, ?_, ?_, ?_⟩
  all_goals decide

/-- C7 amended: walking a childless `pane` node materializes only the
`directory` and `process` attributes; `title`, `profile` and `tab_color`
are always `None` regardless of the input attributes. -/
theorem c7_pane_attrs (e : Element) (fuel : Nat) (reg : Registry)
    (ht : e.tag = "pane") (hc : e.children = []) :
    walkF (fuel+1) e reg = .ok (.pane
      ⟨none, attrGet e "directory", none, (attrGet e "process").map mslexSplit, none⟩) := by
  cases e with
  | mk tag attrs children =>
      simp only [Element.tag] at ht
      simp only [Element.children] at hc
      subst ht
      subst hc
      rfl

/-- C7 witness: a concrete pane element with a directory. -/
theorem c7_witness :
    walkF 1 (.mk "pane" [("directory", "D"), ("title", "T")] []) [[]] =
      .ok (.pane ⟨none, some "D", none, none, none⟩) := by
  exact c7_pane_attrs (.mk "pane" [("directory", "D"), ("title", "T")] []) 0 [[]] rfl rfl

/-- C4: a template declared as a child of subtree `A` is visible to
`A`'s descendants (a `preset` deep inside `A` resolves), but is discarded
when the walk returns from `A`: the same `preset` in a sibling subtree `B`,
or directly at the parent level after `A`, fails with the
unknown-template error. -/
theorem c4_template_scoping :
    walkF 6 (.mk "tab" []
        [.mk "template" [("name", "t")] [.mk "pane" [] []],
         .mk "row" [] [.mk "preset" [("name", "t")] [], .mk "pane" [] []]]) [[]] =
      .ok (.layoutTab (.group .ROW [.pane {}, .pane {}] none)) ∧
    walkF 6 (.mk "window" []
        [.mk "tab" []
          [.mk "template" [("name", "t")] [.mk "pane" [] []],
           .mk "row" [] [.mk "preset" [("name", "t")] [], .mk "pane" [] []]],
         .mk "tab" [] [.mk "preset" [("name", "t")] []]]) [[]] =
      .error (.unknownTemplate "t") ∧
    walkF 6 (.mk "window" []
        [.mk "tab" []
          [.mk "template" [("name", "t")] [.mk "pane" [] []],
           .mk "row" [] [.mk "preset" [("name", "t")] [], .mk "pane" [] []]],
         .mk "preset" [("name", "t")] []]) [[]] =
      .error (.unknownTemplate "t") :=
  ⟨rfl, rfl, rfl⟩

theorem identCont_ne_brace (c : Char) (h : isIdentCont c = true) : c ≠ '\x7d' := by
  intro hc
  subst hc
  exact absurd h (by decide)

theorem validIdent_no_brace (l : List Char) (h : validIdent l = true) :
    ∀ c ∈ l, c ≠ '\x7d' := by
  cases l with
  | nil => simp [validIdent] at h
  | cons c rest =>
      simp only [validIdent, Bool.and_eq_true] at h
      intro a ha
      rcases List.mem_cons.mp ha with rfl | ha
      · intro hc
        subst hc
        exact absurd h.1 (by decide)
      · exact identCont_ne_brace a (by
          have := h.2
          rw [List.all_eq_true] at this
          exact this a ha)

theorem tsubstM_braced_accum (attrs : List (String × String)) :
    ∀ (suffix acc rest : List Char), (∀ c ∈ suffix, c ≠ '\x7d') →
    tsubstM attrs (.braced acc) (suffix ++ '\x7d' :: rest) =
      tsubstM attrs (.braced (acc ++ suffix)) ('\x7d' :: rest) := by
  intro suffix
  induction suffix with
  | nil => intro acc rest _; simp
  | cons c cs ih =>
      intro acc rest h
      have hc : (c == '\x7d') = false :=
        beq_eq_false_iff_ne.mpr (h c (List.mem_cons_self c cs))
      rw [List.cons_append]
      simp only [tsubstM, hc, Bool.false_eq_true, if_false]
      rw [ih (acc ++ [c]) rest (fun a ha => h a (List.mem_cons_of_mem _ ha)),
        List.append_assoc]
      rfl

/-- C9: template resolution substitutes each `${name}` placeholder with the
matching key's value from the preset's attributes, fails with the
undefined-placeholder error (Python KeyError — no silent blank-fill) when
the key is absent, and is non-recursive: the substituted value is spliced
in verbatim, only the remainder of the original text is scanned further.
`_process_template` applies this to every attribute value of the (deep
copied, i.e. freshly built) first child of the template. -/
theorem c9_template_substitution (attrs : List (String × String)) (nm : List Char)
    (rest : List Char) (hnm : validIdent nm = true) :
    (∀ v, lookupAttr attrs nm = some v →
      tsubst attrs ('$' :: '\x7b' :: (nm ++ '\x7d' :: rest)) =
        (fun t => v.data ++ t) <$> tsubst attrs rest) ∧
    (lookupAttr attrs nm = none →
      tsubst attrs ('$' :: '\x7b' :: (nm ++ '\x7d' :: rest)) =
        .error (.undefinedPlaceholder (String.mk nm))) ∧
    (∀ (fuel : Nat) (t impl body : Element) (more : List Element),
      t.children = body :: more →
      processTemplateF fuel t impl = substAttrsF impl.attrib fuel body) ∧
    (∀ (fuel : Nat) (tag k : String) (v : String) (e : Err),
      tsubst attrs v.data = .error e →
      substAttrsF attrs (fuel+1) (.mk tag [(k, v)] []) = .error e) := by
  have hno := validIdent_no_brace nm hnm
  have hbr : tsubst attrs ('$' :: '\x7b' :: (nm ++ '\x7d' :: rest)) =
      tsubstM attrs (.braced nm) ('\x7d' :: rest) := by
    have h1 : tsubst attrs ('$' :: '\x7b' :: (nm ++ '\x7d' :: rest)) =
        tsubstM attrs (.braced []) (nm ++ '\x7d' :: rest) := rfl
    rw [h1, tsubstM_braced_accum attrs nm [] rest hno, List.nil_append]
  refine ⟨?_, ?_, ?_, ?_⟩
  · intro v hv
    rw [hbr]
    simp only [tsubstM, beq_self_eq_true, if_true, hnm, hv]
    rfl
  · intro hv
    rw [hbr]
    simp only [tsubstM, beq_self_eq_true, if_true, hnm, hv]
  · intro fuel t impl body more hch
    cases t with
    | mk tag tattrs tchildren =>
        simp only [Element.children] at hch
        subst hch
        rfl
  · intro fuel tag k v e herr
    simp only [substAttrsF, exList]
    rw [show (((k, v) : String × String)).2.data = v.data from rfl, herr]
    rfl

/-- C9 witness: `${x}` resolves to the value of `x` and the result is not
re-scanned (the spliced-in `${y}` stays literal); a missing key raises the
undefined-placeholder error. -/
theorem c9_witness :
    tsubst [("x", "$\x7by\x7d"), ("y", "z")] ['$', '\x7b', 'x', '\x7d'] =
      .ok ['$', '\x7b', 'y', '\x7d'] ∧
    tsubst [("y", "z")] ['$', '\x7b', 'x', '\x7d'] =
      .error (.undefinedPlaceholder "x") := by
  constructor
  · exact (c9_template_substitution [("x", "$\x7by\x7d"), ("y", "z")] ['x'] []
      (by decide)).1 "$\x7by\x7d" (by decide)
  · exact (c9_template_substitution [("y", "z")] ['x'] []
      (by decide)).2.1 (by decide)
